/-
Verification of the rule-driven CSV transformer `cc.py`.

The processing core is shallowly embedded: a record is an ordered
association list of field names to string values (modelling a Python
dict's insertion order), the configuration is a structure mirroring the
JSON config shape, and the per-row rule engine, match evaluator, truth
writer, schema resolver and per-file driver are translated function by
function from the source.  The Python `re` module is external; the
embedding is parameterised by a `RegexEngine` supplying `re.search` and
`re.sub`, and a concrete `litEngine` implementing the engine for
metacharacter-free (literal) patterns is used to evaluate examples.
-/
import Mathlib

/-- A record: ordered mapping from field name to string value, as a Python
dict with insertion order. -/
abbrev Record := List (String × String)

/-- Lookup of `row[k]` / `row.get(k)`: value of the first pair with key `k`. -/
def Record.get? (r : Record) (k : String) : Option String :=
  (List.find? (fun p => p.1 == k) r).map Prod.snd

/-- Membership test `k in row`. -/
def Record.hasKey (r : Record) (k : String) : Bool :=
  List.any r (fun p => p.1 == k)

/-- Assignment `row[k] = v`: updates the value in place if the key exists
(keeping its position, as a Python dict does), otherwise appends the pair. -/
def Record.set (r : Record) (k v : String) : Record :=
  if Record.hasKey r k then
    List.map (fun p => if p.1 == k then (p.1, v) else p) r
  else
    r ++ [(k, v)]

/-- The ordered key list `list(row.keys())`. -/
def Record.keys (r : Record) : List String :=
  List.map Prod.fst r

/-- An `add-fields` entry: JSON keys `name`, `after` (absent allowed),
`default-value` (absent allowed). -/
structure AddField where
  name : String
  after : Option String := none
  defaultValue : Option String := none
deriving DecidableEq

/-- A match assertion: JSON keys `fields` (default `[]`) and `regex`. -/
structure Assertion where
  fields : List String := []
  regex : String
deriving DecidableEq

/-- A `write-truth` directive: JSON keys `field` and `value` (default `""`). -/
structure WriteTruth where
  field : String
  value : String := ""
deriving DecidableEq

/-- A rule.  JSON keys `name`, `action`, `case-sensitive` (default false),
`match` (default `[]`, here `matchList`), `replace-by` (default `""`),
`write-truth` (optional). -/
structure Rule where
  name : Option String := none
  action : Option String := none
  caseSensitive : Bool := false
  matchList : List Assertion := []
  replaceBy : String := ""
  writeTruth : Option WriteTruth := none
deriving DecidableEq

/-- The `rule.get("name", "no-name")` read used by the rule engine. -/
def ruleName (r : Rule) : String := r.name.getD "no-name"

/-- The `output` config object: keys `fields` (optional), `rule-match-field`
(default `"_rule"`), `file-processed-field` (default `"_file"`),
`drop-unmatched` (default false). -/
structure OutputConfig where
  fields : Option (List String) := none
  ruleMatchField : String := "_rule"
  fileProcessedField : String := "_file"
  dropUnmatched : Bool := false
deriving DecidableEq

/-- The whole config document: keys `add-fields`, `rules`, `output`. -/
structure Config where
  addFields : List AddField := []
  rules : List Rule := []
  output : OutputConfig := {}
deriving DecidableEq

/-- Python `list.insert(i, a)`: insert at position `i`, clamped to the end. -/
def listInsert (i : Nat) (a : String) : List String → List String
  | [] => [a]
  | x :: xs =>
    match i with
    | 0 => a :: x :: xs
    | i + 1 => x :: listInsert i a xs

/-- Python `list.index(a)`: index of the first occurrence. -/
def listIndex (a : String) : List String → Nat
  | [] => 0
  | x :: xs => if x == a then 0 else listIndex a xs + 1

/-- Schema resolver `compute_output_fields(config, sample_row)` (cc.py:23):
starts from the sample row's key order, inserts each absent `add-fields`
name into `base_fields` after its `after` field, writes the defaults onto
the sample row, then takes `output.fields` if non-empty (Python truthiness)
and otherwise the sample row's key list with the rule-match field inserted
at position 0 and the file-processed field at position 1 when missing.
The returned list is the value cached as `config["output"]["computed_fields"]`. -/
def compute_output_fields (config : Config) (sample_row : Record) : List String :=
  let init : List String × List (String × Option String) := (Record.keys sample_row, [])
  let folded := config.addFields.foldl
    (fun st field =>
      let base_fields := st.1
      let added_fields := st.2
      if base_fields.contains field.name then st
      else
        let insert_index :=
          match field.after with
          | some a => if a ≠ "" ∧ base_fields.contains a then listIndex a base_fields + 1
                      else base_fields.length
          | none => base_fields.length
        (listInsert insert_index field.name base_fields,
         added_fields ++ [(field.name, field.defaultValue)]))
    init
  let sample_row := folded.2.foldl
    (fun r p => Record.set r p.1 (p.2.getD "")) sample_row
  match config.output.fields with
  | some (f :: fs) => f :: fs
  | _ =>
    let output_fields := Record.keys sample_row
    let rule_field := config.output.ruleMatchField
    let file_field := config.output.fileProcessedField
    let output_fields :=
      if output_fields.contains rule_field then output_fields
      else listInsert 0 rule_field output_fields
    if output_fields.contains file_field then output_fields
    else listInsert 1 file_field output_fields

/-- The regex flag computed per rule (cc.py:101):
`0 if case-sensitive else re.IGNORECASE`, modelled as an ignore-case Bool. -/
def ruleFlags (rule : Rule) : Bool := !rule.caseSensitive

/-- Shape of the external `re.search`: regex, subject value, ignore-case
flag, returning `group(0)` of the first match when one exists. -/
abbrev SearchFn := String → String → Bool → Option String

/-- The external `re` module as used by the program: `search regex value ic`
models `re.search(regex, value, flags)`, and `sub regex repl value ic`
models `re.sub(regex, repl, value, flags=flags)`. -/
structure RegexEngine where
  search : SearchFn
  sub : String → String → String → Bool → String

/-- Inner loop of the match evaluator (cc.py:65): scan the assertion's
fields in order; for the first field present in the row whose value
matches the regex, produce the summary entry `"field:group0"` and stop. -/
def fieldScan (S : SearchFn) (flags : Bool) (row : Record) (regex : String) :
    List String → Option String
  | [] => none
  | field :: rest =>
    match Record.get? row field with
    | some value =>
      match S regex value flags with
      | some m => some (field ++ ":" ++ m)
      | none => fieldScan S flags row regex rest
    | none => fieldScan S flags row regex rest

/-- Outer loop of the match evaluator (cc.py:64): each assertion contributes
at most one summary entry, in assertion order. -/
def matchLoop (S : SearchFn) (flags : Bool) (row : Record) :
    List Assertion → List String
  | [] => []
  | a :: rest =>
    match fieldScan S flags row a.regex a.fields with
    | some entry => entry :: matchLoop S flags row rest
    | none => matchLoop S flags row rest

/-- Match evaluator `apply_match_assertions(row, rule, regex_flags)`
(cc.py:61): returns `(len(match_summary) >= len(assertions), match_summary)`. -/
def apply_match_assertions (S : SearchFn) (row : Record) (rule : Rule)
    (flags : Bool) : Bool × List String :=
  let match_summary := matchLoop S flags row rule.matchList
  (decide (rule.matchList.length ≤ match_summary.length), match_summary)

/-- Case-insensitive-capable character comparison used by the literal
regex engine. -/
def charMatches (ic : Bool) (a b : Char) : Bool :=
  match ic with
  | true => a.toLower == b.toLower
  | false => a == b

/-- Whether `pat` matches at the start of `s`, literally, modulo case when
`ic` is set. -/
def litStartsWith (ic : Bool) : List Char → List Char → Bool
  | [], _ => true
  | _ :: _, [] => false
  | a :: as, b :: bs => charMatches ic a b && litStartsWith ic as bs

/-- First literal occurrence of `pat` in a character list: returns the
matched characters of the subject (which may differ from `pat` in case). -/
def litFind (ic : Bool) (pat : List Char) : List Char → Option (List Char)
  | [] => if litStartsWith ic pat [] then some [] else none
  | c :: rest =>
    if litStartsWith ic pat (c :: rest) then some (List.take pat.length (c :: rest))
    else litFind ic pat rest

/-- Fuel-indexed replacement of every non-overlapping literal occurrence of
`pat` (left to right), as Python `str.replace` / `re.sub` do for literal
patterns.  The fuel is initialised to the subject length, which suffices. -/
def litSubAux (ic : Bool) (pat repl : List Char) : Nat → List Char → List Char
  | _, [] => []
  | 0, s => s
  | fuel + 1, c :: rest =>
    if pat ≠ [] ∧ litStartsWith ic pat (c :: rest) = true then
      repl ++ litSubAux ic pat repl fuel (List.drop (pat.length - 1) rest)
    else
      c :: litSubAux ic pat repl fuel rest

/-- Model of `re.search(pattern, value, flags)` for literal patterns. -/
def litSearch (pattern value : String) (ic : Bool) : Option String :=
  (litFind ic pattern.data value.data).map (fun cs => String.mk cs)

/-- Model of `re.sub(pattern, repl, value, flags)` for literal patterns. -/
def litSub (pattern repl value : String) (ic : Bool) : String :=
  String.mk (litSubAux ic pattern.data repl.data value.data.length value.data)

/-- The regex engine for literal (metacharacter-free) patterns, used to
evaluate the concrete examples of the specification. -/
def litEngine : RegexEngine :=
  { search := litSearch
    sub := fun regex repl value ic => litSub regex repl value ic }

/-- Python `pat in s` on strings, literal containment. -/
def listContains (pat : List Char) : List Char → Bool
  | [] => litStartsWith false pat []
  | c :: rest => litStartsWith false pat (c :: rest) || listContains pat rest

/-- Python `pat in s` on `String`. -/
def strContains (s pat : String) : Bool := listContains pat.data s.data

/-- Python `s.lower()`. -/
def pyLower (s : String) : String := String.mk (s.data.map Char.toLower)

/-- Python `s.replace(pat, repl)`: every non-overlapping occurrence,
left to right. -/
def pyReplace (s pat repl : String) : String :=
  String.mk (litSubAux false pat.data repl.data s.data.length s.data)

/-- Truth writer `apply_write_truth(row, rule, match_summary)` (cc.py:76):
when the rule has a `write-truth` spec, takes its template `value`,
substitutes `"$match"` by the summary joined with `" AND "` when
`"$match" in value.lower()`, and assigns the result to the target field. -/
def apply_write_truth (row : Record) (rule : Rule) (match_summary : List String) :
    Record :=
  match rule.writeTruth with
  | none => row
  | some wt =>
    let value := wt.value
    let value :=
      if strContains (pyLower value) "$match" then
        pyReplace value "$match" (String.intercalate " AND " match_summary)
      else value
    Record.set row wt.field value

/-- The `replace` action body (cc.py:119): for every assertion field present
in the row, apply the regex substitution with `replace-by`, then run the
truth writer when the rule has a `write-truth` spec. -/
def apply_replace (E : RegexEngine) (rule : Rule) (match_summary : List String)
    (row : Record) : Record :=
  let flags := ruleFlags rule
  let row := rule.matchList.foldl
    (fun r a => a.fields.foldl
      (fun r field =>
        if Record.hasKey r field then
          Record.set r field
            (E.sub a.regex rule.replaceBy ((Record.get? r field).getD "") flags)
        else r)
      r)
    row
  if rule.writeTruth.isSome then apply_write_truth row rule match_summary else row

/-- The `create-row` action body (cc.py:127): copy the row, run the truth
writer on the copy, and tag the copy's rule field with the rule name when
that field is part of the output schema. -/
def make_create_copy (config : Config) (computed_fields : List String)
    (rule : Rule) (match_summary : List String) (row : Record) : Record :=
  let row_copy := row
  let row_copy :=
    if rule.writeTruth.isSome then apply_write_truth row_copy rule match_summary
    else row_copy
  if computed_fields.contains config.output.ruleMatchField then
    Record.set row_copy config.output.ruleMatchField (ruleName rule)
  else row_copy

/-- The `pipe` action body (cc.py:133): run the truth writer on the row in
place, then, when the rule field is in the output schema, append the rule
name to it with a `" | "` separator, starting fresh when it is empty.
The source reads `row[rule_field]` directly; whenever this branch is
reached the field is present (the pre-pass added it exactly when it is in
the schema), so the `getD ""` read below agrees with the source on every
reachable state. -/
def apply_pipe (config : Config) (computed_fields : List String)
    (rule : Rule) (match_summary : List String) (row : Record) : Record :=
  let row :=
    if rule.writeTruth.isSome then apply_write_truth row rule match_summary
    else row
  let rule_field := config.output.ruleMatchField
  if computed_fields.contains rule_field then
    let cur := (Record.get? row rule_field).getD ""
    if cur == "" then Record.set row rule_field (ruleName rule)
    else Record.set row rule_field (cur ++ " | " ++ ruleName rule)
  else row

/-- The rule loop of `process_row` (cc.py:100-153), with the final
emission decision: rules are evaluated in order against the current row
state; `drop-row` returns the empty set at once; `replace` and `pipe`
mutate the row in place; `create-row` appends a snapshot copy to
`processed_rows`; a matched rule with any other action only clears
`no_rule_matched`.  At the end: an unmatched row is emitted alone unless
`drop-unmatched` is set; a matched row is emitted alone when no copies
were accumulated, and otherwise exactly the accumulated copies are emitted. -/
def process_rules (E : RegexEngine) (config : Config)
    (computed_fields : List String) :
    List Rule → Record → List Record → Bool → List Record
  | [], row, processed_rows, no_rule_matched =>
    if no_rule_matched then
      if config.output.dropUnmatched then [] else [row]
    else if processed_rows.isEmpty then [row]
    else processed_rows
  | rule :: rest, row, processed_rows, no_rule_matched =>
    let res := apply_match_assertions E.search row rule (ruleFlags rule)
    if res.1 = false then
      process_rules E config computed_fields rest row processed_rows no_rule_matched
    else if rule.action = some "drop-row" then []
    else if rule.action = some "replace" then
      process_rules E config computed_fields rest
        (apply_replace E rule res.2 row) processed_rows false
    else if rule.action = some "create-row" then
      process_rules E config computed_fields rest row
        (processed_rows ++ [make_create_copy config computed_fields rule res.2 row]) false
    else if rule.action = some "pipe" then
      process_rules E config computed_fields rest
        (apply_pipe config computed_fields rule res.2 row) processed_rows false
    else
      process_rules E config computed_fields rest row processed_rows false

/-- The pre-pass of `process_row` (cc.py:88-98): initialise the rule field
to `""` when it is in the schema but absent from the row, then backfill
every `add-fields` name that is absent or empty with its default. -/
def row_prelude (config : Config) (computed_fields : List String)
    (row : Record) : Record :=
  let rule_field := config.output.ruleMatchField
  let row :=
    if computed_fields.contains rule_field ∧ Record.hasKey row rule_field = false
    then Record.set row rule_field ""
    else row
  config.addFields.foldl
    (fun r fd =>
      if Record.hasKey r fd.name = false ∨ Record.get? r fd.name = some "" then
        Record.set r fd.name (fd.defaultValue.getD "")
      else r)
    row

/-- Row processor `process_row(config, row, ..., computed_fields, ...)`
(cc.py:87): the pre-pass followed by the rule loop started with an empty
copy list and `no_rule_matched = True`.  Logging-only parameters
(file path, row number, verbosity) are omitted. -/
def process_row (E : RegexEngine) (config : Config) (row : Record)
    (computed_fields : List String) : List Record :=
  process_rules E config computed_fields config.rules
    (row_prelude config computed_fields row) [] true

/-- The run state threaded through `process_csv` (cc.py:156): the
`computed_fields` cache stored in `config["output"]`, the CSV writer's
`fieldnames`, and the rows written so far. -/
structure RunState where
  cache : Option (List String)
  fieldnames : List String
  rows : List Record
deriving DecidableEq

/-- The run state at program start: no cached schema, `DictWriter` built
with empty `fieldnames`, nothing written. -/
def initialRunState : RunState := { cache := none, fieldnames := [], rows := [] }

/-- Projection of an emitted row onto the writer's field list (cc.py:186):
`{key: matched_row.get(key, "") for key in writer.fieldnames}`. -/
def project_row (fieldnames : List String) (matched_row : Record) : Record :=
  fieldnames.map (fun key => (key, (Record.get? matched_row key).getD ""))

/-- Emission of one input row's results (cc.py:182-187): process the row,
stamp the file-provenance field on each result when it is in the schema,
project onto the writer's field list and append to the written rows. -/
def write_outputs (E : RegexEngine) (config : Config) (file_name : String)
    (computed_fields : List String) (row : Record) (st : RunState) : RunState :=
  let matched_rows := process_row E config row computed_fields
  let out := matched_rows.map (fun matched_row =>
    let matched_row :=
      if computed_fields.contains config.output.fileProcessedField then
        Record.set matched_row config.output.fileProcessedField file_name
      else matched_row
    project_row st.fieldnames matched_row)
  { st with rows := st.rows ++ out }

/-- Per-file driver `process_csv` (cc.py:156): skip empty rows; on the
first row seen while the `computed_fields` cache is empty, compute the
schema from (a copy of) that row, cache it and set the writer's
`fieldnames`; then process and emit every row.  File opening, the header
check and logging are external I/O and omitted. -/
def process_csv (E : RegexEngine) (config : Config) (file_name : String) :
    List Record → RunState → RunState
  | [], st => st
  | row :: rest, st =>
    if row.isEmpty then process_csv E config file_name rest st
    else
      match st.cache with
      | none =>
        let computed_fields := compute_output_fields config row
        let st1 : RunState :=
          { cache := some computed_fields, fieldnames := computed_fields
            rows := st.rows }
        process_csv E config file_name rest
          (write_outputs E config file_name computed_fields row st1)
      | some computed_fields =>
        process_csv E config file_name rest
          (write_outputs E config file_name computed_fields row st)

/-- Directory driver (cc.py:193): the files are processed one after the
other against the same shared config (hence the same schema cache). -/
def process_files (E : RegexEngine) (config : Config) :
    List (String × List Record) → RunState → RunState
  | [], st => st
  | (file_name, rows) :: rest, st =>
    process_files E config rest (process_csv E config file_name rows st)

/-- All records of a run, in the order the driver sees them. -/
def allRows : List (String × List Record) → List Record
  | [] => []
  | (_, rows) :: rest => rows ++ allRows rest

/-- Unfolding of record lookup over a cons cell. -/
theorem Record.get?_cons (p : String × String) (r : Record) (f : String) :
    Record.get? (p :: r) f = if p.1 == f then some p.2 else Record.get? r f := by
  unfold Record.get?
  cases hpf : p.1 == f
  · simp [List.find?, hpf]
  · simp [List.find?, hpf]

/-- In-place update of key `k` does not change lookup of a key `f ≠ k`. -/
theorem Record.get?_mapset_ne (k v f : String) (h : k ≠ f) :
    ∀ r : Record,
      Record.get? (List.map (fun p => if p.1 == k then (p.1, v) else p) r) f
        = Record.get? r f := by
  intro r
  induction r with
  | nil => rfl
  | cons p rest ih =>
    by_cases hpk : (p.1 == k) = true
    · have hp1 : p.1 = k := by simpa using hpk
      have hpf : (p.1 == f) = false := by
        rw [hp1]; exact beq_eq_false_iff_ne.mpr h
      simp only [List.map_cons, hpk, if_true, Record.get?_cons, hpf,
        Bool.false_eq_true, if_false]
      exact ih
    · simp only [List.map_cons, hpk, if_false, Record.get?_cons]
      by_cases hpf : (p.1 == f) = true
      · simp [hpf]
      · simp only [hpf, Bool.false_eq_true, if_false] at *
        exact ih

/-- Appending a pair with key `k` does not change lookup of `f ≠ k`. -/
theorem Record.get?_append_ne (k v f : String) (h : k ≠ f) :
    ∀ r : Record, Record.get? (r ++ [(k, v)]) f = Record.get? r f := by
  intro r
  induction r with
  | nil =>
    have hkf : (k == f) = false := beq_eq_false_iff_ne.mpr h
    simp [Record.get?, List.find?, hkf]
  | cons p rest ih =>
    by_cases hpf : (p.1 == f) = true
    · simp [List.cons_append, Record.get?_cons, hpf]
    · simp only [List.cons_append, Record.get?_cons, hpf, Bool.false_eq_true,
        if_false] at *
      exact ih

/-- In-place update of a present key `k` makes its lookup the new value. -/
theorem Record.get?_mapset_self (k v : String) :
    ∀ r : Record, Record.hasKey r k = true →
      Record.get? (List.map (fun p => if p.1 == k then (p.1, v) else p) r) k
        = some v := by
  intro r
  induction r with
  | nil => intro h; simp [Record.hasKey] at h
  | cons p rest ih =>
    intro h
    by_cases hp : p.1 = k
    · have hpk : (p.1 == k) = true := beq_iff_eq.mpr hp
      rw [List.map_cons, Record.get?_cons]
      simp [hpk]
    · have hpk : (p.1 == k) = false := beq_eq_false_iff_ne.mpr hp
      have hrest : Record.hasKey rest k = true := by
        have h' : (p.1 == k || Record.hasKey rest k) = true := h
        rw [hpk, Bool.false_or] at h'
        exact h'
      rw [List.map_cons, Record.get?_cons]
      simp only [hpk, Bool.false_eq_true, if_false]
      exact ih hrest

/-- Appending a pair with an absent key makes its lookup the new value. -/
theorem Record.get?_append_self (k v : String) :
    ∀ r : Record, Record.hasKey r k = false →
      Record.get? (r ++ [(k, v)]) k = some v := by
  intro r
  induction r with
  | nil => intro _; simp [Record.get?, List.find?]
  | cons p rest ih =>
    intro h
    unfold Record.hasKey at h
    simp only [List.any_cons, Bool.or_eq_false_iff] at h
    simp only [List.cons_append, Record.get?_cons, h.1, Bool.false_eq_true,
      if_false]
    exact ih h.2

/-- Setting a key makes lookup of that key return the new value. -/
theorem Record.get?_set_self (r : Record) (k v : String) :
    Record.get? (Record.set r k v) k = some v := by
  unfold Record.set
  by_cases hk : Record.hasKey r k = true
  · rw [if_pos hk]; exact Record.get?_mapset_self k v r hk
  · rw [if_neg hk]
    exact Record.get?_append_self k v r (by simpa using hk)

/-- Setting one key does not change lookup of a different key. -/
theorem Record.get?_set_ne (r : Record) (k v f : String) (h : k ≠ f) :
    Record.get? (Record.set r k v) f = Record.get? r f := by
  unfold Record.set
  by_cases hk : Record.hasKey r k = true
  · rw [if_pos hk]; exact Record.get?_mapset_ne k v f h r
  · rw [if_neg hk]; exact Record.get?_append_ne k v f h r

/-- The truth writer leaves every field other than its target unchanged. -/
theorem apply_write_truth_get?_other (row : Record) (rule : Rule)
    (s : List String) (f : String)
    (h : ∀ wt, rule.writeTruth = some wt → wt.field ≠ f) :
    Record.get? (apply_write_truth row rule s) f = Record.get? row f := by
  unfold apply_write_truth
  cases hwt : rule.writeTruth with
  | none => rfl
  | some wt => exact Record.get?_set_ne _ _ _ _ (h wt hwt)

/-- Literal prefix matching (exact case) is preserved under mapping a
character function over both pattern and subject. -/
theorem litStartsWith_map (g : Char → Char) :
    ∀ pat s : List Char, litStartsWith false pat s = true →
      litStartsWith false (pat.map g) (s.map g) = true := by
  intro pat
  induction pat with
  | nil => intro s _; cases s <;> simp [litStartsWith]
  | cons a as ih =>
    intro s hs
    cases s with
    | nil => simp [litStartsWith] at hs
    | cons b bs =>
      simp only [litStartsWith, charMatches, Bool.and_eq_true, beq_iff_eq] at hs
      obtain ⟨hab, htail⟩ := hs
      simp only [List.map_cons, litStartsWith, charMatches, Bool.and_eq_true,
        beq_iff_eq]
      exact ⟨by rw [hab], ih bs htail⟩

/-- Literal containment is preserved under mapping a character function. -/
theorem listContains_map (g : Char → Char) :
    ∀ s pat : List Char, listContains pat s = true →
      listContains (pat.map g) (s.map g) = true := by
  intro s
  induction s with
  | nil =>
    intro pat h
    cases pat with
    | nil => simp [listContains, litStartsWith]
    | cons a as => simp [listContains, litStartsWith] at h
  | cons c rest ih =>
    intro pat h
    rcases Bool.or_eq_true_iff.mp h with h1 | h2
    · have := litStartsWith_map g pat (c :: rest) h1
      simp only [List.map_cons] at this
      show (litStartsWith false (pat.map g) (g c :: rest.map g)
        || listContains (pat.map g) (rest.map g)) = true
      rw [this, Bool.true_or]
    · show (litStartsWith false (pat.map g) (g c :: rest.map g)
        || listContains (pat.map g) (rest.map g)) = true
      rw [ih pat h2, Bool.or_true]

/-- When the pattern occurs nowhere in the subject, literal substitution is
the identity. -/
theorem litSubAux_no_occ (pat repl : List Char) :
    ∀ fuel s, listContains pat s = false →
      litSubAux false pat repl fuel s = s := by
  intro fuel
  induction fuel with
  | zero => intro s _; cases s <;> rfl
  | succ n ih =>
    intro s hs
    cases s with
    | nil => rfl
    | cons c rest =>
      have hs' : (litStartsWith false pat (c :: rest)
          || listContains pat rest) = false := hs
      have h1 : litStartsWith false pat (c :: rest) = false := by
        cases hv : litStartsWith false pat (c :: rest)
        · rfl
        · rw [hv, Bool.true_or] at hs'; exact hs'.symm ▸ rfl
      have h2 : listContains pat rest = false := by
        cases hv : listContains pat rest
        · rfl
        · rw [hv, Bool.or_true] at hs'; exact hs'.symm ▸ rfl
      show litSubAux false pat repl (n + 1) (c :: rest) = c :: rest
      unfold litSubAux
      rw [if_neg (by simp [h1])]
      rw [ih rest h2]

/-- Python `s.replace(pat, repl)` is the identity when `pat` does not occur
in `s`. -/
theorem pyReplace_no_occ (s pat repl : String) (h : strContains s pat = false) :
    pyReplace s pat repl = s := by
  unfold pyReplace
  rw [litSubAux_no_occ pat.data repl.data s.data.length s.data h]

/-- C8: if the write-truth spec is absent the record is unchanged;
otherwise, if the template value contains the literal token `$match`,
every occurrence of `$match` is replaced by the summary entries joined
with `" AND "`, and the (possibly substituted) result is written into the
target field, overwriting any existing value. -/
theorem C8_write_truth (row : Record) (rule : Rule) (summary : List String) :
    apply_write_truth row rule summary =
      match rule.writeTruth with
      | none => row
      | some wt =>
        Record.set row wt.field
          (if strContains wt.value "$match" then
            pyReplace wt.value "$match" (String.intercalate " AND " summary)
          else wt.value) := by
  cases hwt : rule.writeTruth with
  | none => simp [apply_write_truth, hwt]
  | some wt =>
    simp only [apply_write_truth, hwt]
    congr 1
    by_cases hc : strContains wt.value "$match" = true
    · have hlow : strContains (pyLower wt.value) "$match" = true := by
        unfold strContains pyLower
        unfold strContains at hc
        have hmap := listContains_map Char.toLower wt.value.data "$match".data hc
        have hfix : ("$match".data.map Char.toLower) = "$match".data := by decide
        rw [hfix] at hmap
        simpa using hmap
      rw [if_pos hlow, if_pos hc]
    · have hc' : strContains wt.value "$match" = false := by
        cases hv : strContains wt.value "$match"
        · rfl
        · exact absurd hv hc
      rw [if_neg hc]
      by_cases hlow : strContains (pyLower wt.value) "$match" = true
      · rw [if_pos hlow, pyReplace_no_occ _ _ _ hc']
      · rw [if_neg hlow]

/-- Specification-side predicate: an assertion is satisfied when some
listed field is present in the record and its value matches the regex. -/
def assertionSatisfied (S : SearchFn) (flags : Bool) (row : Record)
    (a : Assertion) : Bool :=
  a.fields.any (fun f =>
    ((Record.get? row f).bind (fun v => S a.regex v flags)).isSome)

/-- Specification-side summary contribution of one assertion: for the
first field of the list that is present in the record and whose value
matches, the entry `field:matchedSubstring`; nothing otherwise. -/
def assertionEntry (S : SearchFn) (flags : Bool) (row : Record)
    (a : Assertion) : Option String :=
  (a.fields.find? (fun f =>
      ((Record.get? row f).bind (fun v => S a.regex v flags)).isSome)).bind
    (fun f => ((Record.get? row f).bind (fun v => S a.regex v flags)).map
      (fun m => f ++ ":" ++ m))

/-- The inner field loop agrees with the find-first-satisfying-field
description. -/
theorem fieldScan_eq (S : SearchFn) (flags : Bool) (row : Record)
    (regex : String) :
    ∀ fields : List String,
      fieldScan S flags row regex fields =
        (fields.find? (fun f =>
            ((Record.get? row f).bind (fun v => S regex v flags)).isSome)).bind
          (fun f => ((Record.get? row f).bind (fun v => S regex v flags)).map
            (fun m => f ++ ":" ++ m)) := by
  intro fields
  induction fields with
  | nil => rfl
  | cons f rest ih =>
    cases hg : Record.get? row f with
    | none => simp [fieldScan, List.find?, hg, ih]
    | some v =>
      cases hs : S regex v flags with
      | none => simp [fieldScan, List.find?, hg, hs, ih]
      | some m => simp [fieldScan, List.find?, hg, hs]

/-- The outer assertion loop is the filterMap of the per-assertion entry. -/
theorem matchLoop_eq_filterMap (S : SearchFn) (flags : Bool) (row : Record) :
    ∀ l : List Assertion,
      matchLoop S flags row l = l.filterMap (assertionEntry S flags row) := by
  intro l
  induction l with
  | nil => rfl
  | cons a rest ih =>
    have ha : assertionEntry S flags row a
        = fieldScan S flags row a.regex a.fields :=
      (fieldScan_eq S flags row a.regex a.fields).symm
    cases hf : fieldScan S flags row a.regex a.fields with
    | none => simp [matchLoop, hf, List.filterMap_cons, ha, ih]
    | some e => simp [matchLoop, hf, List.filterMap_cons, ha, ih]

/-- The summary never has more entries than there are assertions. -/
theorem matchLoop_length_le (S : SearchFn) (flags : Bool) (row : Record) :
    ∀ l : List Assertion, (matchLoop S flags row l).length ≤ l.length := by
  intro l
  induction l with
  | nil => simp [matchLoop]
  | cons a rest ih =>
    have hlen : (a :: rest).length = rest.length + 1 := rfl
    cases hf : fieldScan S flags row a.regex a.fields with
    | none => simp only [matchLoop, hf]; omega
    | some e =>
      have hlen2 : (e :: matchLoop S flags row rest).length
          = (matchLoop S flags row rest).length + 1 := rfl
      simp only [matchLoop, hf]
      omega

/-- The summary is at least as long as the assertion list exactly when
every assertion contributed an entry. -/
theorem matchLoop_length_ge_iff (S : SearchFn) (flags : Bool) (row : Record) :
    ∀ l : List Assertion,
      (l.length ≤ (matchLoop S flags row l).length ↔
        ∀ a ∈ l, (fieldScan S flags row a.regex a.fields).isSome = true) := by
  intro l
  induction l with
  | nil => simp
  | cons a rest ih =>
    cases hf : fieldScan S flags row a.regex a.fields with
    | none =>
      have hle := matchLoop_length_le S flags row rest
      have hlen : (a :: rest).length = rest.length + 1 := rfl
      simp only [matchLoop, hf, List.mem_cons]
      constructor
      · intro h
        exfalso
        omega
      · intro h
        have := h a (Or.inl rfl)
        rw [hf] at this
        simp at this
    | some e =>
      have hlen : (a :: rest).length = rest.length + 1 := rfl
      have hlen2 : (e :: matchLoop S flags row rest).length
          = (matchLoop S flags row rest).length + 1 := rfl
      simp only [matchLoop, hf, List.mem_cons]
      constructor
      · intro h b hb
        rcases hb with hb | hb
        · rw [hb, hf]; rfl
        · exact (ih.mp (by omega)) b hb
      · intro h
        have : rest.length ≤ (matchLoop S flags row rest).length :=
          ih.mpr (fun b hb => h b (Or.inr hb))
        omega

/-- An assertion is satisfied exactly when the field loop finds an entry. -/
theorem assertionSatisfied_iff (S : SearchFn) (flags : Bool) (row : Record)
    (a : Assertion) :
    assertionSatisfied S flags row a = true ↔
      (fieldScan S flags row a.regex a.fields).isSome = true := by
  rw [fieldScan_eq]
  unfold assertionSatisfied
  cases hf : a.fields.find? (fun f =>
      ((Record.get? row f).bind (fun v => S a.regex v flags)).isSome) with
  | none =>
    have hall := List.find?_eq_none.mp hf
    simp only [Option.none_bind, Option.isSome_none]
    rw [List.any_eq_true]
    constructor
    · rintro ⟨f, hmem, hsat⟩; exact absurd hsat (hall f hmem)
    · intro h; exact absurd h Bool.false_ne_true
  | some f =>
    have hsat := List.find?_some hf
    have hmem := List.mem_of_find?_eq_some hf
    simp only [Option.some_bind]
    rw [List.any_eq_true]
    constructor
    · intro _
      cases ho : (Record.get? row f).bind (fun v => S a.regex v flags) with
      | none => rw [ho] at hsat; simp at hsat
      | some m => simp [ho]
    · intro _; exact ⟨f, hmem, hsat⟩

/-- C6: the match evaluator returns `matched = true` iff every assertion of
the rule is satisfied, where an assertion is satisfied exactly when some
field of its list is present in the record with a value matching the regex
(the first such field wins); the summary is the per-assertion entries
`field:firstMatchedSubstring` in assertion order, one per satisfied
assertion; and a rule with zero assertions is trivially matched with an
empty summary. -/
theorem C6_match_evaluator (S : SearchFn) (row : Record) (rule : Rule)
    (flags : Bool) :
    ((apply_match_assertions S row rule flags).1 = true ↔
      ∀ a ∈ rule.matchList, assertionSatisfied S flags row a = true)
    ∧ (apply_match_assertions S row rule flags).2
        = rule.matchList.filterMap (assertionEntry S flags row)
    ∧ (rule.matchList = [] →
        apply_match_assertions S row rule flags = (true, [])) := by
  refine ⟨?_, ?_, ?_⟩
  · show decide (rule.matchList.length
        ≤ (matchLoop S flags row rule.matchList).length) = true ↔ _
    rw [decide_eq_true_eq]
    rw [matchLoop_length_ge_iff]
    constructor
    · intro h a ha
      exact (assertionSatisfied_iff S flags row a).mpr (h a ha)
    · intro h a ha
      exact (assertionSatisfied_iff S flags row a).mp (h a ha)
  · show matchLoop S flags row rule.matchList = _
    exact matchLoop_eq_filterMap S flags row rule.matchList
  · intro h
    unfold apply_match_assertions
    rw [h]
    rfl

/-- Witness for C6 at a concrete input: a rule with zero assertions is
trivially matched with an empty summary. -/
theorem C6_match_evaluator_witness :
    apply_match_assertions litEngine.search [("id", "1")] ({} : Rule) true
      = (true, []) :=
  (C6_match_evaluator litEngine.search [("id", "1")] {} true).2.2 rfl

/-- C3: whenever rule processing reaches a rule with action `drop-row`
that matches the current record state, the loop terminates at that rule
and the result for the record is the empty output set, regardless of the
remaining rules and of any create-row copies accumulated so far. -/
theorem C3_drop_row_short_circuit (E : RegexEngine) (config : Config)
    (computed_fields : List String) (rule : Rule) (rest : List Rule)
    (row : Record) (acc : List Record) (nm : Bool)
    (hact : rule.action = some "drop-row")
    (hm : (apply_match_assertions E.search row rule (ruleFlags rule)).1 = true) :
    process_rules E config computed_fields (rule :: rest) row acc nm = [] := by
  simp [process_rules, hm, hact]

/-- Witness for C3: a matching drop-row rule discards an already
accumulated create-row copy and yields no output. -/
theorem C3_drop_row_short_circuit_witness :
    process_rules litEngine {} []
      [{ name := some "d", action := some "drop-row" }]
      [("a", "1")] [[("x", "y")]] false = [] :=
  C3_drop_row_short_circuit litEngine {} []
    { name := some "d", action := some "drop-row" } []
    [("a", "1")] [[("x", "y")]] false rfl (by decide)

/-- C9: after a replace rule has been applied once, a second pass of the
same single-rule configuration over the resulting record leaves it
unchanged when the rule's regex no longer matches: the rule does not
match, so no substitution and no truth write happen and the record is
emitted as is. -/
theorem C9_replace_idempotent (E : RegexEngine) (config : Config)
    (computed_fields : List String) (rule : Rule) (row0 row1 : Record)
    (hrules : config.rules = [rule])
    (hact : rule.action = some "replace")
    (hdrop : config.output.dropUnmatched = false)
    (h1 : process_row E config row0 computed_fields = [row1])
    (h2 : (apply_match_assertions E.search row1 rule (ruleFlags rule)).1 = false) :
    process_rules E config computed_fields config.rules row1 [] true = [row1] := by
  rw [hrules]
  simp [process_rules, h2, hdrop]

/-- Witness for C9: first application turns `f = "a"` into `f = "b"`, the
second pass leaves the record unchanged. -/
theorem C9_replace_idempotent_witness :
    process_rules litEngine
      { rules := [{ name := some "r", action := some "replace",
                    matchList := [{ fields := ["f"], regex := "a" }],
                    replaceBy := "b" }] }
      ["f"]
      ({ rules := [{ name := some "r", action := some "replace",
                     matchList := [{ fields := ["f"], regex := "a" }],
                     replaceBy := "b" }] } : Config).rules
      [("f", "b")] [] true = [[("f", "b")]] :=
  C9_replace_idempotent litEngine _ ["f"]
    { name := some "r", action := some "replace",
      matchList := [{ fields := ["f"], regex := "a" }], replaceBy := "b" }
    [("f", "a")] [("f", "b")] rfl rfl rfl (by decide) (by decide)

/-- A rule action string that selects none of the four handled actions. -/
def unknownAction (r : Rule) : Bool :=
  !(r.action == some "drop-row" || r.action == some "replace"
    || r.action == some "create-row" || r.action == some "pipe")

/-- A run of rules all carrying unhandled actions leaves the row, the copy
list and the (already false) no-match flag untouched. -/
theorem process_rules_unknown_all (E : RegexEngine) (config : Config)
    (cf : List String) :
    ∀ (rules : List Rule) (row : Record),
      rules.all unknownAction = true →
      process_rules E config cf rules row [] false = [row] := by
  intro rules
  induction rules with
  | nil => intro row _; simp [process_rules]
  | cons rule rest ih =>
    intro row hall
    simp only [List.all_cons, Bool.and_eq_true] at hall
    obtain ⟨hu, hrest⟩ := hall
    have hnd : rule.action ≠ some "drop-row" := by
      intro hc; simp [unknownAction, hc] at hu
    have hnr : rule.action ≠ some "replace" := by
      intro hc; simp [unknownAction, hc] at hu
    have hnc : rule.action ≠ some "create-row" := by
      intro hc; simp [unknownAction, hc] at hu
    have hnp : rule.action ≠ some "pipe" := by
      intro hc; simp [unknownAction, hc] at hu
    by_cases hm : (apply_match_assertions E.search row rule (ruleFlags rule)).1
        = false
    · simp only [process_rules, hm, if_pos]
      exact ih row hrest
    · have hm' : (apply_match_assertions E.search row rule (ruleFlags rule)).1
          = true := by
        cases hv : (apply_match_assertions E.search row rule (ruleFlags rule)).1
        · exact absurd hv hm
        · rfl
      simp only [process_rules, hm', if_neg, if_false]
      rw [if_neg (by simp), if_neg hnd, if_neg hnr, if_neg hnc, if_neg hnp]
      exact ih row hrest

/-- C10: a matched rule whose action is none of drop-row, replace,
create-row, pipe (a missing action included) causes no error and no
mutation of the record or of the accumulated copies, yet still counts as
a match: a record matched only by such rules is emitted as the single
current record, whatever the drop-unmatched flag says. -/
theorem C10_unknown_action (E : RegexEngine) (config : Config)
    (cf : List String) (rules : List Rule) (row : Record)
    (hall : rules.all unknownAction = true)
    (hmatch : rules.any
      (fun r => (apply_match_assertions E.search row r (ruleFlags r)).1)
      = true) :
    process_rules E config cf rules row [] true = [row] := by
  induction rules with
  | nil => simp at hmatch
  | cons rule rest ih =>
    simp only [List.all_cons, Bool.and_eq_true] at hall
    obtain ⟨hu, hrest⟩ := hall
    have hnd : rule.action ≠ some "drop-row" := by
      intro hc; simp [unknownAction, hc] at hu
    have hnr : rule.action ≠ some "replace" := by
      intro hc; simp [unknownAction, hc] at hu
    have hnc : rule.action ≠ some "create-row" := by
      intro hc; simp [unknownAction, hc] at hu
    have hnp : rule.action ≠ some "pipe" := by
      intro hc; simp [unknownAction, hc] at hu
    by_cases hm : (apply_match_assertions E.search row rule (ruleFlags rule)).1
        = true
    · simp only [process_rules]
      rw [if_neg (by simp [hm]), if_neg hnd, if_neg hnr, if_neg hnc, if_neg hnp]
      exact process_rules_unknown_all E config cf rest row hrest
    · have hm0 : (apply_match_assertions E.search row rule (ruleFlags rule)).1
          = false := by
        cases hv : (apply_match_assertions E.search row rule (ruleFlags rule)).1
        · rfl
        · exact absurd hv hm
      have hany : rest.any
          (fun r => (apply_match_assertions E.search row r (ruleFlags r)).1)
          = true := by
        rw [List.any_cons] at hmatch
        rcases Bool.or_eq_true_iff.mp hmatch with h | h
        · exact absurd h (by simp [hm0])
        · exact h
      simp only [process_rules, hm0, if_pos]
      exact ih hrest hany

/-- Witness for C10: an unknown action on a trivially matching rule emits
the record unchanged even though drop-unmatched is set. -/
theorem C10_unknown_action_witness :
    process_rules litEngine { output := { dropUnmatched := true } } []
      [{ name := some "u", action := some "weird" }]
      [("a", "b")] [] true = [[("a", "b")]] :=
  C10_unknown_action litEngine { output := { dropUnmatched := true } } []
    [{ name := some "u", action := some "weird" }]
    [("a", "b")] (by decide) (by decide)

/-- C5 counterexample: with an empty rule list but a non-trivial
add-fields entry, the emitted record is the default-backfilled record,
not the input record itself. -/
theorem C5_counterexample :
    process_row litEngine
      { addFields := [{ name := "x", defaultValue := some "d" }] }
      [("id", "1")] ["id", "x"]
      ≠ [[("id", "1")]] := by decide

/-- C5 (amended): with an empty rule list, processing emits exactly one
record, the input record after the pre-pass (rule-field initialisation
and add-fields default backfill), unless drop-unmatched is set, in which
case it emits nothing; the record equals the input exactly when the
pre-pass leaves it unchanged. -/
theorem C5_empty_rules (E : RegexEngine) (config : Config)
    (computed_fields : List String) (row : Record)
    (h : config.rules = []) :
    process_row E config row computed_fields =
      if config.output.dropUnmatched then []
      else [row_prelude config computed_fields row] := by
  unfold process_row
  rw [h]
  rfl

/-- Witness for C5 at the counterexample input: the emitted record is the
backfilled one. -/
theorem C5_empty_rules_witness :
    process_row litEngine
      { addFields := [{ name := "x", defaultValue := some "d" }] }
      [("id", "1")] ["id", "x"]
      = if ({ addFields := [{ name := "x", defaultValue := some "d" }]
              } : Config).output.dropUnmatched
        then []
        else [row_prelude
          { addFields := [{ name := "x", defaultValue := some "d" }] }
          ["id", "x"] [("id", "1")]] :=
  C5_empty_rules litEngine
    { addFields := [{ name := "x", defaultValue := some "d" }] }
    ["id", "x"] [("id", "1")] rfl

/-- The rule loop as a state transformer: `none` when a matching drop-row
rule ended the loop, otherwise the final row, accumulated create-row
copies and no-match flag.  Mirrors the branching of `process_rules`. -/
def rule_pass (E : RegexEngine) (config : Config) (cf : List String) :
    List Rule → Record → List Record → Bool →
      Option (Record × List Record × Bool)
  | [], row, acc, nm => some (row, acc, nm)
  | rule :: rest, row, acc, nm =>
    let res := apply_match_assertions E.search row rule (ruleFlags rule)
    if res.1 = false then rule_pass E config cf rest row acc nm
    else if rule.action = some "drop-row" then none
    else if rule.action = some "replace" then
      rule_pass E config cf rest (apply_replace E rule res.2 row) acc false
    else if rule.action = some "create-row" then
      rule_pass E config cf rest row
        (acc ++ [make_create_copy config cf rule res.2 row]) false
    else if rule.action = some "pipe" then
      rule_pass E config cf rest (apply_pipe config cf rule res.2 row) acc false
    else rule_pass E config cf rest row acc false

/-- The emission decision of cc.py:141-153 applied to a loop outcome. -/
def finalize (config : Config)
    (outcome : Option (Record × List Record × Bool)) : List Record :=
  match outcome with
  | none => []
  | some (row, acc, nm) =>
    if nm then
      if config.output.dropUnmatched then [] else [row]
    else if acc.isEmpty then [row]
    else acc

/-- The rule loop equals its state-transformer form followed by the
emission decision. -/
theorem process_rules_eq_finalize (E : RegexEngine) (config : Config)
    (cf : List String) :
    ∀ (rules : List Rule) (row : Record) (acc : List Record) (nm : Bool),
      process_rules E config cf rules row acc nm
        = finalize config (rule_pass E config cf rules row acc nm) := by
  intro rules
  induction rules with
  | nil => intro row acc nm; rfl
  | cons rule rest ih =>
    intro row acc nm
    cases hm : (apply_match_assertions E.search row rule (ruleFlags rule)).1 with
    | false =>
      simp only [process_rules, rule_pass, hm]
      exact ih row acc nm
    | true =>
      by_cases h1 : rule.action = some "drop-row"
      · simp [process_rules, rule_pass, hm, h1, finalize]
      · by_cases h2 : rule.action = some "replace"
        · simp only [process_rules, rule_pass, hm]
          rw [if_neg (by simp), if_neg h1, if_pos h2,
            if_neg (by simp), if_neg h1, if_pos h2]
          exact ih _ acc false
        · by_cases h3 : rule.action = some "create-row"
          · simp only [process_rules, rule_pass, hm]
            rw [if_neg (by simp), if_neg h1, if_neg h2, if_pos h3,
              if_neg (by simp), if_neg h1, if_neg h2, if_pos h3]
            exact ih row _ false
          · by_cases h4 : rule.action = some "pipe"
            · simp only [process_rules, rule_pass, hm]
              rw [if_neg (by simp), if_neg h1, if_neg h2, if_neg h3, if_pos h4,
                if_neg (by simp), if_neg h1, if_neg h2, if_neg h3, if_pos h4]
              exact ih _ acc false
            · simp only [process_rules, rule_pass, hm]
              rw [if_neg (by simp), if_neg h1, if_neg h2, if_neg h3, if_neg h4,
                if_neg (by simp), if_neg h1, if_neg h2, if_neg h3, if_neg h4]
              exact ih row acc false

/-- Once some rule has matched, the no-match flag stays cleared. -/
theorem rule_pass_nm_false (E : RegexEngine) (config : Config)
    (cf : List String) :
    ∀ (rules : List Rule) (row : Record) (acc : List Record)
      (r : Record) (a : List Record) (n : Bool),
      rule_pass E config cf rules row acc false = some (r, a, n) → n = false := by
  intro rules
  induction rules with
  | nil =>
    intro row acc r a n h
    simp only [rule_pass, Option.some.injEq, Prod.mk.injEq] at h
    exact h.2.2.symm
  | cons rule rest ih =>
    intro row acc r a n h
    cases hm : (apply_match_assertions E.search row rule (ruleFlags rule)).1 with
    | false =>
      simp only [rule_pass, hm] at h
      exact ih row acc r a n h
    | true =>
      by_cases h1 : rule.action = some "drop-row"
      · simp [rule_pass, hm, h1] at h
      · by_cases h2 : rule.action = some "replace"
        · simp only [rule_pass, hm] at h
          rw [if_neg (by simp), if_neg h1, if_pos h2] at h
          exact ih _ acc r a n h
        · by_cases h3 : rule.action = some "create-row"
          · simp only [rule_pass, hm] at h
            rw [if_neg (by simp), if_neg h1, if_neg h2, if_pos h3] at h
            exact ih row _ r a n h
          · by_cases h4 : rule.action = some "pipe"
            · simp only [rule_pass, hm] at h
              rw [if_neg (by simp), if_neg h1, if_neg h2, if_neg h3,
                if_pos h4] at h
              exact ih _ acc r a n h
            · simp only [rule_pass, hm] at h
              rw [if_neg (by simp), if_neg h1, if_neg h2, if_neg h3,
                if_neg h4] at h
              exact ih row acc r a n h

/-- If the loop ends with the no-match flag still set, the copy list is
unchanged. -/
theorem rule_pass_true_acc (E : RegexEngine) (config : Config)
    (cf : List String) :
    ∀ (rules : List Rule) (row : Record) (acc : List Record)
      (r : Record) (a : List Record),
      rule_pass E config cf rules row acc true = some (r, a, true) → a = acc := by
  intro rules
  induction rules with
  | nil =>
    intro row acc r a h
    simp only [rule_pass, Option.some.injEq, Prod.mk.injEq] at h
    exact h.2.1.symm
  | cons rule rest ih =>
    intro row acc r a h
    cases hm : (apply_match_assertions E.search row rule (ruleFlags rule)).1 with
    | false =>
      simp only [rule_pass, hm] at h
      exact ih row acc r a h
    | true =>
      by_cases h1 : rule.action = some "drop-row"
      · simp [rule_pass, hm, h1] at h
      · by_cases h2 : rule.action = some "replace"
        · simp only [rule_pass, hm] at h
          rw [if_neg (by simp), if_neg h1, if_pos h2] at h
          exact absurd (rule_pass_nm_false E config cf rest _ acc r a true h) (by simp)
        · by_cases h3 : rule.action = some "create-row"
          · simp only [rule_pass, hm] at h
            rw [if_neg (by simp), if_neg h1, if_neg h2, if_pos h3] at h
            exact absurd (rule_pass_nm_false E config cf rest row _ r a true h) (by simp)
          · by_cases h4 : rule.action = some "pipe"
            · simp only [rule_pass, hm] at h
              rw [if_neg (by simp), if_neg h1, if_neg h2, if_neg h3,
                if_pos h4] at h
              exact absurd (rule_pass_nm_false E config cf rest _ acc r a true h) (by simp)
            · simp only [rule_pass, hm] at h
              rw [if_neg (by simp), if_neg h1, if_neg h2, if_neg h3,
                if_neg h4] at h
              exact absurd (rule_pass_nm_false E config cf rest row acc r a true h) (by simp)

/-- C4: when the loop completes without a drop and create-row copies were
accumulated, the emitted rows are exactly those copies in rule order and
the (possibly mutated) original record is not emitted; in particular for
a replace rule A followed by a create-row rule B, both matching, the
emitted rows are B's copy of the record as already mutated by A. -/
theorem C4_create_row_precedence :
    (∀ (E : RegexEngine) (config : Config) (cf : List String)
        (rules : List Rule) (row r : Record) (copies : List Record) (n : Bool),
      rule_pass E config cf rules row [] true = some (r, copies, n) →
      copies ≠ [] →
      process_rules E config cf rules row [] true = copies)
    ∧ (∀ (E : RegexEngine) (config : Config) (cf : List String)
        (A B : Rule) (row : Record),
      A.action = some "replace" → B.action = some "create-row" →
      (apply_match_assertions E.search row A (ruleFlags A)).1 = true →
      (apply_match_assertions E.search
        (apply_replace E A
          (apply_match_assertions E.search row A (ruleFlags A)).2 row)
        B (ruleFlags B)).1 = true →
      process_rules E config cf [A, B] row [] true =
        [make_create_copy config cf B
          (apply_match_assertions E.search
            (apply_replace E A
              (apply_match_assertions E.search row A (ruleFlags A)).2 row)
            B (ruleFlags B)).2
          (apply_replace E A
            (apply_match_assertions E.search row A (ruleFlags A)).2 row)]) := by
  constructor
  · intro E config cf rules row r copies n hpass hne
    rw [process_rules_eq_finalize, hpass]
    unfold finalize
    cases n with
    | true =>
      exact absurd (rule_pass_true_acc E config cf rules row [] r copies hpass)
        hne
    | false =>
      have hiso : copies.isEmpty = false := by
        cases copies with
        | nil => exact absurd rfl hne
        | cons c cs => rfl
      simp [hiso]
  · intro E config cf A B row hA hB hmA hmB
    simp only [process_rules]
    rw [if_neg (by simp [hmA]), if_neg (by simp [hA]), if_pos hA]
    rw [if_neg (by simp [hmB]), if_neg (by simp [hB]), if_neg (by simp [hB]),
      if_pos hB]
    simp

/-- Witness for C4: replace rule A rewrites `f = "a"` to `"b"`, create-row
rule B matches the mutated record; the emitted row is B's tagged copy of
the mutated record. -/
theorem C4_create_row_precedence_witness :
    process_rules litEngine {} ["_rule"]
      [{ name := some "A", action := some "replace",
         matchList := [{ fields := ["f"], regex := "a" }], replaceBy := "b" },
       { name := some "B", action := some "create-row",
         matchList := [{ fields := ["f"], regex := "b" }] }]
      [("f", "a")] [] true
      = [[("f", "b"), ("_rule", "B")]] := by
  have h := C4_create_row_precedence.2 litEngine {} ["_rule"]
    { name := some "A", action := some "replace",
      matchList := [{ fields := ["f"], regex := "a" }], replaceBy := "b" }
    { name := some "B", action := some "create-row",
      matchList := [{ fields := ["f"], regex := "b" }] }
    [("f", "a")] rfl rfl (by decide) (by decide)
  exact h.trans (by decide)

/-- Effect of the pipe action on the rule-identifier field: when the field
is in the schema, holds `cur`, and the rule's write-truth (if any) targets
a different field, the pipe appends the rule name with a `" | "` separator
or starts fresh when `cur` is empty. -/
theorem apply_pipe_get?_rf (config : Config) (cf : List String) (rule : Rule)
    (s : List String) (row : Record)
    (hrf : cf.contains config.output.ruleMatchField = true)
    (hwt : ∀ wt, rule.writeTruth = some wt →
      wt.field ≠ config.output.ruleMatchField)
    (cur : String)
    (hcur : Record.get? row config.output.ruleMatchField = some cur) :
    Record.get? (apply_pipe config cf rule s row) config.output.ruleMatchField
      = some (if cur == "" then ruleName rule
              else cur ++ " | " ++ ruleName rule) := by
  have hrow' : Record.get?
      (if rule.writeTruth.isSome then apply_write_truth row rule s else row)
      config.output.ruleMatchField = some cur := by
    by_cases hs : rule.writeTruth.isSome = true
    · rw [if_pos hs, apply_write_truth_get?_other row rule s _ hwt]
      exact hcur
    · rw [if_neg hs]
      exact hcur
  simp only [apply_pipe]
  rw [if_pos hrf, hrow']
  simp only [Option.getD_some]
  by_cases hc : (cur == "") = true
  · rw [if_pos hc, Record.get?_set_self, if_pos hc]
  · rw [if_neg hc, Record.get?_set_self, if_neg hc]

/-- C7: for a record whose rule-identifier field starts empty, a
configuration of two pipe rules that both match (and whose write-truth
specs, if any, do not target the rule field), with the rule field in the
output schema, emits a single record whose rule field is
`nameA | nameB` in match order. -/
theorem C7_pipe_accumulation (E : RegexEngine) (config : Config)
    (cf : List String) (A B : Rule) (row : Record)
    (hrules : config.rules = [A, B])
    (hA : A.action = some "pipe") (hB : B.action = some "pipe")
    (hrf : cf.contains config.output.ruleMatchField = true)
    (hwA : ∀ wt, A.writeTruth = some wt →
      wt.field ≠ config.output.ruleMatchField)
    (hwB : ∀ wt, B.writeTruth = some wt →
      wt.field ≠ config.output.ruleMatchField)
    (hname : ruleName A ≠ "")
    (h0 : Record.get? (row_prelude config cf row) config.output.ruleMatchField
      = some "")
    (hmA : (apply_match_assertions E.search (row_prelude config cf row) A
      (ruleFlags A)).1 = true)
    (hmB : (apply_match_assertions E.search
      (apply_pipe config cf A
        (apply_match_assertions E.search (row_prelude config cf row) A
          (ruleFlags A)).2
        (row_prelude config cf row))
      B (ruleFlags B)).1 = true) :
    ∃ r, process_row E config row cf = [r] ∧
      Record.get? r config.output.ruleMatchField
        = some (ruleName A ++ " | " ++ ruleName B) := by
  refine ⟨apply_pipe config cf B
    (apply_match_assertions E.search
      (apply_pipe config cf A
        (apply_match_assertions E.search (row_prelude config cf row) A
          (ruleFlags A)).2
        (row_prelude config cf row))
      B (ruleFlags B)).2
    (apply_pipe config cf A
      (apply_match_assertions E.search (row_prelude config cf row) A
        (ruleFlags A)).2
      (row_prelude config cf row)), ?_, ?_⟩
  · unfold process_row
    rw [hrules]
    simp only [process_rules]
    rw [if_neg (by simp [hmA]), if_neg (by simp [hA]), if_neg (by simp [hA]),
      if_neg (by simp [hA]), if_pos hA]
    rw [if_neg (by simp [hmB]), if_neg (by simp [hB]), if_neg (by simp [hB]),
      if_neg (by simp [hB]), if_pos hB]
    simp
  · have h1 : Record.get?
        (apply_pipe config cf A
          (apply_match_assertions E.search (row_prelude config cf row) A
            (ruleFlags A)).2
          (row_prelude config cf row))
        config.output.ruleMatchField = some (ruleName A) := by
      rw [apply_pipe_get?_rf config cf A _ _ hrf hwA "" h0]
      rfl
    rw [apply_pipe_get?_rf config cf B _ _ hrf hwB (ruleName A) h1]
    have hne : (ruleName A == "") = false := beq_eq_false_iff_ne.mpr hname
    rw [if_neg (by simp [hne])]

/-- Witness for C7: two matching pipe rules named A and B produce a rule
field `A | B`. -/
theorem C7_pipe_accumulation_witness :
    ∃ r, process_row litEngine
        { rules := [{ name := some "A", action := some "pipe",
                      matchList := [{ fields := ["msg"], regex := "E" }] },
                    { name := some "B", action := some "pipe",
                      matchList := [{ fields := ["msg"], regex := "E" }] }] }
        [("msg", "E")] ["_rule", "msg"] = [r] ∧
      Record.get? r "_rule" = some "A | B" := by
  obtain ⟨r, h1, h2⟩ := C7_pipe_accumulation litEngine
    { rules := [{ name := some "A", action := some "pipe",
                  matchList := [{ fields := ["msg"], regex := "E" }] },
                { name := some "B", action := some "pipe",
                  matchList := [{ fields := ["msg"], regex := "E" }] }] }
    ["_rule", "msg"]
    { name := some "A", action := some "pipe",
      matchList := [{ fields := ["msg"], regex := "E" }] }
    { name := some "B", action := some "pipe",
      matchList := [{ fields := ["msg"], regex := "E" }] }
    [("msg", "E")]
    rfl rfl rfl (by decide)
    (fun wt h => Option.noConfusion h)
    (fun wt h => Option.noConfusion h)
    (by decide) (by decide) (by decide) (by decide)
  exact ⟨r, h1, h2.trans (by decide)⟩

/-- C1 evaluated on the code: at the claimed example the schema resolver
produces `["_rule","_file","id","msg","status"]` with the added field
`status` at the end, not `["_rule","_file","id","status","msg"]` with
`status` immediately after `id` as claimed (the after-insertion is
computed into `base_fields`, which the function then never uses); the
emitted row's field values do match the claim. -/
theorem C1_code_eval :
    compute_output_fields
        { addFields := [{ name := "status", after := some "id",
                          defaultValue := some "new" }],
          rules := [{ name := some "flag-test", action := some "create-row",
                      matchList := [{ fields := ["msg"], regex := "ERROR" }] }] }
        [("id", "1"), ("msg", "ERROR: fail")]
      = ["_rule", "_file", "id", "msg", "status"]
    ∧ (["_rule", "_file", "id", "msg", "status"] : List String)
        ≠ ["_rule", "_file", "id", "status", "msg"]
    ∧ process_row litEngine
        { addFields := [{ name := "status", after := some "id",
                          defaultValue := some "new" }],
          rules := [{ name := some "flag-test", action := some "create-row",
                      matchList := [{ fields := ["msg"], regex := "ERROR" }] }] }
        [("id", "1"), ("msg", "ERROR: fail")]
        ["_rule", "_file", "id", "msg", "status"]
      = [[("id", "1"), ("msg", "ERROR: fail"), ("_rule", "flag-test"),
          ("status", "new")]] := by
  refine ⟨by decide, by decide, by decide⟩

/-- A row of the output stream is a projection of some processed record
onto the given schema (missing fields as `""`, others dropped). -/
def projForm (schema : List String) (o : Record) : Prop :=
  ∃ mr, o = project_row schema mr

/-- Every row appended by one emission step is a projection onto the
writer's current field list. -/
theorem write_outputs_projForm (E : RegexEngine) (config : Config)
    (fn : String) (cf : List String) (row : Record) (st : RunState) :
    ∀ o ∈ (write_outputs E config fn cf row st).rows,
      o ∈ st.rows ∨ projForm st.fieldnames o := by
  intro o ho
  unfold write_outputs at ho
  rcases List.mem_append.mp ho with hin | hnew
  · exact Or.inl hin
  · obtain ⟨mr0, _, heq⟩ := List.mem_map.mp hnew
    exact Or.inr ⟨_, heq.symm⟩

/-- Once the schema cache is set, the per-file driver never changes it or
the writer's field list, and only appends projection-shaped rows. -/
theorem process_csv_cached (E : RegexEngine) (config : Config) (fn : String) :
    ∀ (rows : List Record) (st : RunState) (cf0 : List String),
      st.cache = some cf0 →
      (process_csv E config fn rows st).cache = some cf0
      ∧ (process_csv E config fn rows st).fieldnames = st.fieldnames
      ∧ ∀ o ∈ (process_csv E config fn rows st).rows,
          o ∈ st.rows ∨ projForm st.fieldnames o := by
  intro rows
  induction rows with
  | nil => intro st cf0 h; exact ⟨h, rfl, fun o ho => Or.inl ho⟩
  | cons row rest ih =>
    intro st cf0 h
    by_cases hemp : row.isEmpty = true
    · simp only [process_csv]
      rw [if_pos hemp]
      exact ih st cf0 h
    · simp only [process_csv]
      rw [if_neg hemp, h]
      have hcache' : (write_outputs E config fn cf0 row st).cache = some cf0 := h
      obtain ⟨ha, hb, hc⟩ := ih (write_outputs E config fn cf0 row st) cf0 hcache'
      refine ⟨ha, hb, fun o ho => ?_⟩
      rcases hc o ho with hin | hproj
      · exact write_outputs_projForm E config fn cf0 row st o hin
      · exact Or.inr hproj

/-- A file whose rows are all empty leaves the run state untouched. -/
theorem process_csv_all_empty (E : RegexEngine) (config : Config)
    (fn : String) :
    ∀ (rows : List Record) (st : RunState),
      rows.find? (fun r => !r.isEmpty) = none →
      process_csv E config fn rows st = st := by
  intro rows
  induction rows with
  | nil => intro st _; rfl
  | cons row rest ih =>
    intro st hf
    cases hp : (!row.isEmpty) with
    | true => simp [List.find?, hp] at hf
    | false =>
      have hemp : row.isEmpty = true := by
        cases hv : row.isEmpty
        · rw [hv] at hp; exact absurd hp (by simp)
        · rfl
      have hf' : rest.find? (fun r => !r.isEmpty) = none := by
        simp only [List.find?, hp] at hf
        exact hf
      simp only [process_csv]
      rw [if_pos hemp]
      exact ih st hf'

/-- Processing a file with the cache empty computes the schema from the
file's first non-empty row, caches it, sets the writer's field list to it
and appends only projection-shaped rows. -/
theorem process_csv_first (E : RegexEngine) (config : Config) (fn : String) :
    ∀ (rows : List Record) (st : RunState) (r0 : Record),
      st.cache = none →
      rows.find? (fun r => !r.isEmpty) = some r0 →
      (process_csv E config fn rows st).cache
        = some (compute_output_fields config r0)
      ∧ (process_csv E config fn rows st).fieldnames
        = compute_output_fields config r0
      ∧ ∀ o ∈ (process_csv E config fn rows st).rows,
          o ∈ st.rows ∨ projForm (compute_output_fields config r0) o := by
  intro rows
  induction rows with
  | nil => intro st r0 _ hf; simp [List.find?] at hf
  | cons row rest ih =>
    intro st r0 h hf
    cases hp : (!row.isEmpty) with
    | false =>
      have hemp : row.isEmpty = true := by
        cases hv : row.isEmpty
        · rw [hv] at hp; exact absurd hp (by simp)
        · rfl
      have hf' : rest.find? (fun r => !r.isEmpty) = some r0 := by
        simp only [List.find?, hp] at hf
        exact hf
      simp only [process_csv]
      rw [if_pos hemp]
      exact ih st r0 h hf'
    | true =>
      have hemp : row.isEmpty = false := by
        cases hv : row.isEmpty
        · rfl
        · rw [hv] at hp; exact absurd hp (by simp)
      have hrow : row = r0 := by
        simp only [List.find?, hp] at hf
        exact Option.some_inj.mp hf
      subst hrow
      simp only [process_csv]
      rw [if_neg (by simp [hemp]), h]
      obtain ⟨ha, hb, hc⟩ := process_csv_cached E config fn rest
        (write_outputs E config fn (compute_output_fields config row) row
          { cache := some (compute_output_fields config row),
            fieldnames := compute_output_fields config row, rows := st.rows })
        (compute_output_fields config row) rfl
      refine ⟨ha, hb, fun o ho => ?_⟩
      rcases hc o ho with hin | hproj
      · exact write_outputs_projForm E config fn
          (compute_output_fields config row) row
          { cache := some (compute_output_fields config row),
            fieldnames := compute_output_fields config row, rows := st.rows }
          o hin
      · exact Or.inr hproj

/-- Finding in an appended list when the first part has no hit. -/
theorem findOpt_append_none {α : Type} (p : α → Bool) :
    ∀ (l1 l2 : List α), l1.find? p = none →
      (l1 ++ l2).find? p = l2.find? p := by
  intro l1 l2
  induction l1 with
  | nil => intro _; rfl
  | cons a rest ih =>
    intro h
    cases hp : p a with
    | true => simp [List.find?, hp] at h
    | false =>
      have h' : rest.find? p = none := by
        simp only [List.find?, hp] at h
        exact h
      simp only [List.cons_append, List.find?, hp]
      exact ih h'

/-- Finding in an appended list when the first part has a hit. -/
theorem findOpt_append_some {α : Type} (p : α → Bool) :
    ∀ (l1 l2 : List α) (x : α), l1.find? p = some x →
      (l1 ++ l2).find? p = some x := by
  intro l1 l2
  induction l1 with
  | nil => intro x h; simp [List.find?] at h
  | cons a rest ih =>
    intro x h
    cases hp : p a with
    | true =>
      simp only [List.find?, hp] at h
      simp only [List.cons_append, List.find?, hp]
      exact h
    | false =>
      have h' : rest.find? p = some x := by
        simp only [List.find?, hp] at h
        exact h
      simp only [List.cons_append, List.find?, hp]
      exact ih x h'

/-- Once the schema cache is set, the directory driver never changes it
or the writer's field list, and only appends projection-shaped rows. -/
theorem process_files_cached (E : RegexEngine) (config : Config) :
    ∀ (files : List (String × List Record)) (st : RunState)
      (cf0 : List String),
      st.cache = some cf0 →
      (process_files E config files st).cache = some cf0
      ∧ (process_files E config files st).fieldnames = st.fieldnames
      ∧ ∀ o ∈ (process_files E config files st).rows,
          o ∈ st.rows ∨ projForm st.fieldnames o := by
  intro files
  induction files with
  | nil => intro st cf0 h; exact ⟨h, rfl, fun o ho => Or.inl ho⟩
  | cons head rest ih =>
    obtain ⟨fn, rows⟩ := head
    intro st cf0 h
    obtain ⟨ha1, hb1, hc1⟩ := process_csv_cached E config fn rows st cf0 h
    obtain ⟨ha2, hb2, hc2⟩ := ih (process_csv E config fn rows st) cf0 ha1
    refine ⟨ha2, hb2.trans hb1, fun o ho => ?_⟩
    rcases hc2 o ho with hin | hproj
    · rcases hc1 o hin with hin' | hproj'
      · exact Or.inl hin'
      · exact Or.inr hproj'
    · rw [hb1] at hproj
      exact Or.inr hproj

/-- Starting with an empty cache, the run computes the schema from the
first non-empty record of the whole run, caches it, sets the writer's
field list to it, and appends only projection-shaped rows. -/
theorem process_files_first (E : RegexEngine) (config : Config) :
    ∀ (files : List (String × List Record)) (st : RunState) (r0 : Record),
      st.cache = none →
      (allRows files).find? (fun r => !r.isEmpty) = some r0 →
      (process_files E config files st).cache
        = some (compute_output_fields config r0)
      ∧ (process_files E config files st).fieldnames
        = compute_output_fields config r0
      ∧ ∀ o ∈ (process_files E config files st).rows,
          o ∈ st.rows ∨ projForm (compute_output_fields config r0) o := by
  intro files
  induction files with
  | nil => intro st r0 _ hf; simp [allRows, List.find?] at hf
  | cons head rest ih =>
    obtain ⟨fn, rows⟩ := head
    intro st r0 h hf
    cases h1 : rows.find? (fun r => !r.isEmpty) with
    | none =>
      have hf' : (allRows rest).find? (fun r => !r.isEmpty) = some r0 := by
        have := findOpt_append_none (fun r : Record => !r.isEmpty)
          rows (allRows rest) h1
        rw [show allRows ((fn, rows) :: rest) = rows ++ allRows rest from rfl,
          this] at hf
        exact hf
      simp only [process_files]
      rw [process_csv_all_empty E config fn rows st h1]
      exact ih st r0 h hf'
    | some r =>
      have hr : r = r0 := by
        have := findOpt_append_some (fun r : Record => !r.isEmpty)
          rows (allRows rest) r h1
        rw [show allRows ((fn, rows) :: rest) = rows ++ allRows rest from rfl,
          this] at hf
        exact Option.some_inj.mp hf
      subst hr
      obtain ⟨ha1, hb1, hc1⟩ := process_csv_first E config fn rows st r h h1
      obtain ⟨ha2, hb2, hc2⟩ := process_files_cached E config rest
        (process_csv E config fn rows st) (compute_output_fields config r) ha1
      simp only [process_files]
      refine ⟨ha2, hb2.trans hb1, fun o ho => ?_⟩
      rcases hc2 o ho with hin | hproj
      · exact hc1 o hin
      · rw [hb1] at hproj
        exact Or.inr hproj

/-- C2: the output schema is computed once per run, from the first
non-empty record seen, is cached and reused unchanged for all later
records and files, and every emitted row is the projection of a processed
record onto exactly that schema: fields outside the schema are dropped
and schema fields missing from the record appear as the empty string. -/
theorem C2_schema_frozen (E : RegexEngine) (config : Config)
    (files : List (String × List Record)) (r0 : Record)
    (h : (allRows files).find? (fun r => !r.isEmpty) = some r0) :
    (process_files E config files initialRunState).cache
      = some (compute_output_fields config r0)
    ∧ (process_files E config files initialRunState).fieldnames
      = compute_output_fields config r0
    ∧ ∀ o ∈ (process_files E config files initialRunState).rows,
        ∃ mr, o = project_row (compute_output_fields config r0) mr := by
  obtain ⟨ha, hb, hc⟩ :=
    process_files_first E config files initialRunState r0 rfl h
  refine ⟨ha, hb, fun o ho => ?_⟩
  rcases hc o ho with hin | hproj
  · exact absurd hin (by simp [initialRunState])
  · exact hproj

/-- Witness for C2: a one-file, one-record run; the schema is computed
from that record and every output row is its projection. -/
theorem C2_schema_frozen_witness :
    (process_files litEngine {} [("f.csv", [[("id", "1")]])]
        initialRunState).cache
      = some (compute_output_fields {} [("id", "1")])
    ∧ (process_files litEngine {} [("f.csv", [[("id", "1")]])]
        initialRunState).fieldnames
      = compute_output_fields {} [("id", "1")]
    ∧ ∀ o ∈ (process_files litEngine {} [("f.csv", [[("id", "1")]])]
        initialRunState).rows,
        ∃ mr, o = project_row (compute_output_fields {} [("id", "1")]) mr :=
  C2_schema_frozen litEngine {} [("f.csv", [[("id", "1")]])] [("id", "1")]
    (by decide)
